import Mathlib

/-!
Verification of the pool-tournament bot core (`main.py`).

The shallow embedding below translates the state-mutating core of the
program: the persisted aggregate (players / promoters / tables /
next_table_id), the state-store fallback behaviour of `load_state`, and the
four command handlers that call `save_state` (`start`, `promo`, `join`,
`winner`).  Python dicts are modelled as insertion-ordered association
lists (`dget` / `dinsert` mirror `d[k]` lookup and `d[k] = v` update:
an update replaces the value in place, a fresh key is appended at the
end, exactly like CPython dicts).  Monetary amounts (`pending_payout`,
`total_paid`, `PROMO_BONUS`) are Python floats whose only arithmetic in
the program is exact (`x += 2.0`); they are modelled as rationals.

The transport layer (Telegram argument parsing, reply formatting, the
admin-id and group-chat guards, which perform no state access) is out of
scope per the spec; the handlers are modelled from the point where they
touch the aggregate.  Where a handler issues `save_state` calls and
user-visible replies in a significant order (`join`), the model also
returns the ordered event trace of saves and replies.
-/

-- ---------- CONFIG (main.py lines 32-36) ----------

def TABLE_SIZE : Nat := 5
def BUY_IN : Nat := 5
def WIN_PRIZE : Nat := 20
def HOUSE_CUT : Nat := 5

/-- `PROMO_BONUS = 2.0` ($2 per referred winner), modelled as a rational. -/
def PROMO_BONUS : ℚ := 2

-- ---------- Python dicts as insertion-ordered association lists ----------

/-- `d[k]` lookup: first entry with the given key. -/
def dget {α : Type} (d : List (String × α)) (k : String) : Option α :=
  match d with
  | [] => none
  | (k', v) :: rest => if k' = k then some v else dget rest k

/-- `d[k] = v` update: replaces the value of an existing key in place,
appends a fresh key at the end (CPython dict semantics). -/
def dinsert {α : Type} (d : List (String × α)) (k : String) (v : α) :
    List (String × α) :=
  match d with
  | [] => [(k, v)]
  | (k', v') :: rest =>
    if k' = k then (k, v) :: rest else (k', v') :: dinsert rest k v

-- ---------- Python string primitives, modelled at character level ----------

/-- Python `s.startswith(pre)`: the prefix relation on the character
sequences. -/
def pyStartsWith (s pre : String) : Bool :=
  pre.data.isPrefixOf s.data

/-- Python `s[n:]` on character sequences (used for
`args[0].split("_", 1)[1]`, see `parseToken`). -/
def pyDrop (s : String) (n : Nat) : String :=
  String.mk (s.data.drop n)

/-- Python `str.lower()`, restricted to ASCII case-folding (Telegram
usernames are ASCII; `Char.toLower` lowercases exactly `A`-`Z`). -/
def pyLower (s : String) : String :=
  String.mk (s.data.map Char.toLower)

/-- Decimal-digit accumulator for `pyToInt?`. -/
def decDigitsAux : List Char → Nat → Option Nat
  | [], acc => some acc
  | c :: rest, acc =>
    if c.isDigit then decDigitsAux rest (acc * 10 + (c.toNat - 48)) else none

/-- Python `int(s)` for a canonical optionally-signed decimal string,
`none` when `int()` raises `ValueError`.  (Python also tolerates
surrounding whitespace, a `+` sign and embedded underscores; those forms
never arise here — the parse is only used at main.py line 140 to decide
whether promoter-shell creation raises.) -/
def pyToInt? (s : String) : Option Int :=
  match s.data with
  | [] => none
  | c :: rest =>
    if c = '-' then
      match rest with
      | [] => none
      | _ => (decDigitsAux rest 0).map fun n => -(n : Int)
    else (decDigitsAux (c :: rest) 0).map fun n => (n : Int)

-- ---------- DATA MODEL (main.py lines 68-119) ----------

/-- A player record (`get_or_create_player`, main.py lines 72-80). -/
structure Player where
  id : Nat
  username : Option String
  first_name : Option String
  joined_tables : Nat
  wins : Nat
  referred_by : Option String
  promo_code : Option String
deriving DecidableEq, Repr

/-- A promoter record (`get_or_create_promoter`, main.py lines 88-96;
the lazy shell created at main.py lines 139-147 uses the same shape with
`id` parsed from the referral token). -/
structure Promoter where
  id : Int
  username : Option String
  first_name : Option String
  promo_code : String
  referred_players : Nat
  pending_payout : ℚ
  total_paid : ℚ
deriving DecidableEq, Repr

/-- The three table statuses (main.py line 112: `waiting | running | finished`). -/
inductive Status where
  | waiting
  | running
  | finished
deriving DecidableEq, Repr

/-- A table record (`create_table`, main.py lines 110-117).  `promoters` is
the per-table promoter-count dict created empty and never written. -/
structure Table where
  id : Nat
  status : Status
  buy_in : Nat
  players : List String
  winner_id : Option String
  promoters : List (String × Nat)
deriving DecidableEq, Repr

/-- The persisted aggregate (the dict produced by `load_state`). -/
structure State where
  tables : List (String × Table)
  next_table_id : Nat
  players : List (String × Player)
  promoters : List (String × Promoter)
deriving DecidableEq, Repr

/-- The invoking Telegram user as seen by the handlers: numeric id,
optional username, optional first name. -/
structure User where
  id : Nat
  username : Option String
  first_name : Option String
deriving DecidableEq, Repr

-- ---------- STATE MANAGEMENT (main.py lines 41-65) ----------

/-- The empty aggregate built by `load_state` (main.py lines 44-49 and 54-59). -/
def emptyState : State :=
  { tables := [], next_table_id := 1, players := [], promoters := [] }

/-- The condition of the persisted representation when `load_state` runs:
the state file may be missing (main.py line 43), opening/parsing it may
raise (the `except Exception` at main.py line 53), or it parses to an
aggregate. -/
inductive Persisted where
  | missing
  | corrupt
  | stored (s : State)

/-- `load_state` (main.py lines 41-59): returns the parsed aggregate, and
the empty aggregate when the file is missing or unreadable/corrupt. -/
def load_state : Persisted → State
  | Persisted.missing => emptyState
  | Persisted.corrupt => emptyState
  | Persisted.stored s => s

-- ---------- IDENTITY REGISTRY (main.py lines 68-97) ----------

/-- The fresh player dict literal (main.py lines 72-80). -/
def freshPlayer (u : User) : Player :=
  { id := u.id, username := u.username, first_name := u.first_name,
    joined_tables := 0, wins := 0, referred_by := none, promo_code := none }

/-- The string literal `"promo_"` used for promo codes and referral tokens. -/
def pyPromoTag : String := "promo_"

/-- The fresh promoter dict literal (main.py lines 88-96). -/
def freshPromoter (u : User) : Promoter :=
  { id := (u.id : Int), username := u.username, first_name := u.first_name,
    promo_code := pyPromoTag ++ toString u.id,
    referred_players := 0, pending_payout := 0, total_paid := 0 }

/-- `get_or_create_player` (main.py lines 68-81): returns the updated
state together with the (existing or fresh) record the handler goes on to
mutate. -/
def get_or_create_player (s : State) (u : User) : State × Player :=
  let uid := toString u.id
  match dget s.players uid with
  | some p => (s, p)
  | none =>
    ({ s with players := dinsert s.players uid (freshPlayer u) }, freshPlayer u)

/-- `get_or_create_promoter` (main.py lines 84-97). -/
def get_or_create_promoter (s : State) (u : User) : State × Promoter :=
  let uid := toString u.id
  match dget s.promoters uid with
  | some pr => (s, pr)
  | none =>
    ({ s with promoters := dinsert s.promoters uid (freshPromoter u) },
     freshPromoter u)

-- ---------- TABLE CREATION / LOOKUP (main.py lines 100-119) ----------

/-- `find_waiting_table` (main.py lines 100-104): first table (in dict
insertion order) with status `waiting` and spare capacity; the key is kept
so the functional model can write the mutation back. -/
def find_waiting_table : List (String × Table) → Option (String × Table)
  | [] => none
  | (k, t) :: rest =>
    if t.status = Status.waiting ∧ t.players.length < TABLE_SIZE then some (k, t)
    else find_waiting_table rest

/-- `create_table` (main.py lines 107-119): allocates the next sequential
id and stores a fresh `waiting` table. -/
def create_table (s : State) : State × String × Table :=
  let table_id := s.next_table_id
  let t : Table :=
    { id := table_id, status := Status.waiting, buy_in := BUY_IN,
      players := [], winner_id := none, promoters := [] }
  ({ s with next_table_id := table_id + 1,
            tables := dinsert s.tables (toString table_id) t },
   toString table_id, t)

-- ---------- REFERRAL RESOLVER (/start, main.py lines 124-150) ----------

/-- The referral-token test of main.py lines 132-133: a token is a
referral token when it starts with `"promo_"`; its promoter id is
`args[0].split("_", 1)[1]`, i.e. everything after the first underscore,
which (the prefix being exactly `promo_`) is the token minus its first 6
characters. -/
def parseToken (tok : String) : Option String :=
  if pyStartsWith tok pyPromoTag then some (pyDrop tok 6) else none

/-- The promoter-registration block of `start` (main.py lines 136-148):
credits the promoter named by a just-recorded referral, creating a lazy
shell record first when the promoter has never interacted.  Returns
`none` when building the shell raises (the `int(promoter_id)` call at
main.py line 140 on a non-numeric id), making the whole handler abort
before `save_state`. -/
def registerPromoter (s2 : State) (promoter_id : String) : Option State :=
  match dget s2.promoters promoter_id with
  | some pr =>
    some { s2 with promoters :=
            (dinsert s2.promoters promoter_id
              ({ pr with referred_players := pr.referred_players + 1 })) }
  | none =>
    match pyToInt? promoter_id with
    | none => none   -- int(promoter_id) raises ValueError
    | some n =>
      let shell : Promoter :=
        { id := n, username := none, first_name := none,
          promo_code := pyPromoTag ++ promoter_id,
          referred_players := 0, pending_payout := 0, total_paid := 0 }
      let s3 := { s2 with promoters := dinsert s2.promoters promoter_id shell }
      some { s3 with promoters :=
              (dinsert s3.promoters promoter_id
                ({ shell with referred_players := shell.referred_players + 1 })) }

/-- `start` (main.py lines 124-150), up to `save_state`.  The handler
always calls `get_or_create_player`; when the command carries a referral
token, the player has no referrer yet and the token does not name the
player themselves, it links the player and credits the promoter via
`registerPromoter`.  When `registerPromoter` aborts, nothing reaches
`save_state`, so the persisted aggregate stays exactly the pre-handler
state. -/
def start (s0 : State) (u : User) (arg : Option String) : State :=
  let uid := toString u.id
  let sp := get_or_create_player s0 u
  let s1 := sp.1
  let p := sp.2
  match arg with
  | none => s1
  | some tok =>
    match parseToken tok, p.referred_by with
    | some promoter_id, none =>
      if promoter_id = uid then s1   -- no self-ref (main.py line 134)
      else
        let p' := { p with referred_by := some promoter_id }
        let s2 := { s1 with players := dinsert s1.players uid p' }
        match registerPromoter s2 promoter_id with
        | some s3 => s3
        | none => s0   -- the handler aborted: nothing is saved
    | _, _ => s1

-- ---------- PROMOTER MATERIALS (/promo, main.py lines 179-197) ----------

/-- `promo` (main.py lines 179-186), up to `save_state`: get-or-create the
promoter record, then overwrite its `username` / `first_name` from the
invoking user ("sync username/name"). -/
def promo (s0 : State) (u : User) : State :=
  let uid := toString u.id
  let sp := get_or_create_promoter s0 u
  let s1 := sp.1
  let pr := sp.2
  { s1 with promoters :=
      (dinsert s1.promoters uid
        ({ pr with username := u.username, first_name := u.first_name })) }

-- ---------- ENROLLMENT (/join, main.py lines 225-279) ----------

/-- The result object of a `join`, distinguishing the three reply shapes
of the handler; the filled/joined cases carry the table key the reply
names. -/
inductive JoinOutcome where
  | duplicateEnrollment
  | playerJoined (tid : String)
  | tableFilled (tid : String)
deriving DecidableEq, Repr

/-- Externally observable persistence/reply events of a handler, in
program order: `save s` is a `save_state(state)` call committing `s`,
`reply` is a message sent to the chat. -/
inductive Event where
  | save (s : State)
  | reply
deriving DecidableEq, Repr

/-- `join` (main.py lines 225-279) past the group-chat guard, returning
the final persisted state, the outcome, and the ordered trace of
`save_state` calls and replies.  On a duplicate enrollment the handler
returns before any `save_state`, so the persisted state is the pre-handler
state.  When the table fills, the handler saves the appended list (line
246), sends the join reply (line 251), only then flips the status to
`running`, saves again (line 258) and announces (line 279). -/
def join (s0 : State) (u : User) : State × JoinOutcome × List Event :=
  let uid := toString u.id
  let sp := get_or_create_player s0 u
  let s1 := sp.1
  let p := sp.2
  let ktt : State × String × Table :=
    match find_waiting_table s1.tables with
    | some kt => (s1, kt.1, kt.2)
    | none => create_table s1
  let s2 := ktt.1
  let tid := ktt.2.1
  let t := ktt.2.2
  if uid ∈ t.players then
    (s0, JoinOutcome.duplicateEnrollment, [Event.reply])
  else
    let t' := { t with players := t.players ++ [uid] }
    let p' := { p with joined_tables := p.joined_tables + 1 }
    let s3 := { s2 with tables := dinsert s2.tables tid t',
                        players := dinsert s2.players uid p' }
    if TABLE_SIZE ≤ t'.players.length then
      let t2 := { t' with status := Status.running }
      let s4 := { s3 with tables := dinsert s3.tables tid t2 }
      (s4, JoinOutcome.tableFilled tid,
       [Event.save s3, Event.reply, Event.save s4, Event.reply])
    else
      (s3, JoinOutcome.playerJoined tid, [Event.save s3, Event.reply])

/-- The states committed by `save_state` within a trace, in order. -/
def savedStates (tr : List Event) : List State :=
  tr.filterMap fun e =>
    match e with
    | Event.save s => some s
    | Event.reply => none

-- ---------- WINNER DECLARATION (/winner, main.py lines 298-364) ----------

/-- The string literal `"@"`. -/
def atSign : String := "@"

/-- The per-player test of the matching loop (main.py line 329):
`uname and ("@" + uname.lower() == mention.lower())` — a player matches
only if their `username` is set, non-empty (Python truthiness), and
`"@" + username` equals the mention up to case. -/
def mentionMatches (p : Player) (mention : String) : Bool :=
  match p.username with
  | none => false
  | some uname =>
    (!(uname == "")) && (atSign ++ pyLower uname == pyLower mention)

/-- The winner-matching loop (main.py lines 323-331): first player id in
the table's join-order list whose record exists and matches the mention;
the matched record is returned alongside (the handler re-reads it at line
341 as `state["players"][winner_uid]`, which is the same record). -/
def matchWinner (players : List (String × Player)) (pids : List String)
    (mention : String) : Option (String × Player) :=
  match pids with
  | [] => none
  | pid :: rest =>
    match dget players pid with
    | none => matchWinner players rest mention
    | some p =>
      if mentionMatches p mention then some (pid, p)
      else matchWinner players rest mention

/-- The typed failures of `winner` (main.py lines 314, 318, 333). -/
inductive WinnerError where
  | tableNotFound
  | tableNotRunning
  | winnerNotInTable
deriving DecidableEq, Repr

instance : DecidableEq (Except WinnerError String) := fun a b =>
  match a, b with
  | Except.ok x, Except.ok y =>
    if h : x = y then isTrue (by rw [h]) else isFalse (by simp [h])
  | Except.error x, Except.error y =>
    if h : x = y then isTrue (by rw [h]) else isFalse (by simp [h])
  | Except.ok _, Except.error _ => isFalse (by simp)
  | Except.error _, Except.ok _ => isFalse (by simp)

/-- The promoter-payout block of `winner` (main.py lines 344-350), the
Payout Ledger accrual: when the winner's `referred_by` is set (Python
truthiness: neither `None` nor the empty string) and that promoter record
exists, add `PROMO_BONUS` to the promoter's `pending_payout`; in every
other case change nothing. -/
def accrue (s1 : State) (referred_by : Option String) : State :=
  match referred_by with
  | none => s1
  | some promoter_id =>
    if promoter_id = "" then s1
    else
      match dget s1.promoters promoter_id with
      | none => s1
      | some prom =>
        { s1 with promoters :=
            (dinsert s1.promoters promoter_id
              ({ prom with pending_payout :=
                  (prom.pending_payout + PROMO_BONUS) })) }

/-- `winner` (main.py lines 298-364) past the admin guard and argument
count check: looks up the table, requires status `running`, resolves the
mention, then marks the table finished, records the winner id, increments
the winner's `wins`, and — when the winner's `referred_by` is set (Python
truthiness: a non-`None`, non-empty string) and that promoter record
exists — adds `PROMO_BONUS` to the promoter's `pending_payout`.  All
three failure paths return before `save_state`. -/
def winner (s : State) (table_id_str : String) (mention : String) :
    State × Except WinnerError String :=
  match dget s.tables table_id_str with
  | none => (s, Except.error WinnerError.tableNotFound)
  | some t =>
    if t.status ≠ Status.running then
      (s, Except.error WinnerError.tableNotRunning)
    else
      match matchWinner s.players t.players mention with
      | none => (s, Except.error WinnerError.winnerNotInTable)
      | some (winner_uid, wp) =>
        let t' := { t with status := Status.finished,
                           winner_id := some winner_uid }
        let wp' := { wp with wins := wp.wins + 1 }
        let s1 := { s with tables := dinsert s.tables table_id_str t',
                           players := dinsert s.players winner_uid wp' }
        (accrue s1 wp.referred_by, Except.ok winner_uid)

-- ---------- OPERATIONS OF THE SYSTEM ----------

/-- One inbound command as it affects the persisted aggregate.  `readCmd`
covers `/help`, `/status`, `/tables` and `/promostats`, which load the
state but never call `save_state`. -/
inductive Op where
  | startCmd (u : User) (arg : Option String)
  | promoCmd (u : User)
  | joinCmd (u : User)
  | winnerCmd (table_id_str mention : String)
  | readCmd

/-- The persisted aggregate after one command. -/
def applyOp (s : State) : Op → State
  | Op.startCmd u a => start s u a
  | Op.promoCmd u => promo s u
  | Op.joinCmd u => (join s u).1
  | Op.winnerCmd tid m => (winner s tid m).1
  | Op.readCmd => s

/-- The persisted aggregate after a sequence of commands. -/
def runOps (s : State) (ops : List Op) : State := ops.foldl applyOp s

/-- The persisted aggregate after a sequence of enrollments only. -/
def joinAll (s : State) (us : List User) : State :=
  us.foldl (fun s u => (join s u).1) s

-- ---------- DICTIONARY LEMMAS ----------

@[simp]
theorem dget_dinsert_self {α : Type} (d : List (String × α)) (k : String) (v : α) :
    dget (dinsert d k v) k = some v := by
  induction d with
  | nil => simp [dget, dinsert]
  | cons kv rest ih =>
    obtain ⟨k', v'⟩ := kv
    by_cases h : k' = k <;> simp [dget, dinsert, h, ih]

theorem dget_dinsert_ne {α : Type} (d : List (String × α)) (k k' : String) (v : α)
    (h : k' ≠ k) : dget (dinsert d k v) k' = dget d k' := by
  have h' : k ≠ k' := Ne.symm h
  induction d with
  | nil => simp [dget, dinsert, h']
  | cons kv rest ih =>
    obtain ⟨k0, v0⟩ := kv
    by_cases h0 : k0 = k
    · subst h0
      simp [dget, dinsert, h']
    · simp only [dinsert, if_neg h0, dget]
      by_cases h1 : k0 = k' <;> simp [h1, ih]

theorem dget_mem {α : Type} {d : List (String × α)} {k : String} {v : α}
    (h : dget d k = some v) : (k, v) ∈ d := by
  induction d with
  | nil => simp [dget] at h
  | cons kv rest ih =>
    obtain ⟨k', v'⟩ := kv
    by_cases h0 : k' = k
    · subst h0
      simp [dget] at h
      simp [h]
    · simp [dget, h0] at h
      exact List.mem_cons_of_mem _ (ih h)

theorem mem_dinsert {α : Type} {d : List (String × α)} {k : String} {v : α}
    {kv' : String × α} (h : kv' ∈ dinsert d k v) : kv' ∈ d ∨ kv' = (k, v) := by
  induction d with
  | nil => simp [dinsert] at h; simp [h]
  | cons kv rest ih =>
    obtain ⟨k0, v0⟩ := kv
    by_cases h0 : k0 = k
    · simp [dinsert, h0] at h
      rcases h with h | h
      · right; simp [h]
      · left; exact List.mem_cons_of_mem _ h
    · simp only [dinsert, if_neg h0] at h
      rcases List.mem_cons.mp h with h | h
      · left; simp [h]
      · rcases ih h with h | h
        · left; exact List.mem_cons_of_mem _ h
        · right; exact h

theorem isSome_dget_dinsert {α : Type} (d : List (String × α)) (k r : String) (v : α)
    (h : (dget d r).isSome) : (dget (dinsert d k v) r).isSome := by
  by_cases hk : r = k
  · subst hk; simp
  · rwa [dget_dinsert_ne _ _ _ _ hk]

-- ---------- BASIC OPERATION LEMMAS ----------

theorem get_or_create_player_existing {s : State} {u : User} {p : Player}
    (h : dget s.players (toString u.id) = some p) :
    get_or_create_player s u = (s, p) := by
  simp [get_or_create_player, h]

theorem get_or_create_player_fresh {s : State} {u : User}
    (h : dget s.players (toString u.id) = none) :
    get_or_create_player s u =
      ({ s with players := dinsert s.players (toString u.id) (freshPlayer u) },
       freshPlayer u) := by
  simp [get_or_create_player, h]

theorem get_or_create_player_tables (s : State) (u : User) :
    (get_or_create_player s u).1.tables = s.tables := by
  unfold get_or_create_player
  cases h : dget s.players (toString u.id) <;> simp [h]

theorem get_or_create_player_promoters (s : State) (u : User) :
    (get_or_create_player s u).1.promoters = s.promoters := by
  unfold get_or_create_player
  cases h : dget s.players (toString u.id) <;> simp [h]

theorem get_or_create_player_next (s : State) (u : User) :
    (get_or_create_player s u).1.next_table_id = s.next_table_id := by
  unfold get_or_create_player
  cases h : dget s.players (toString u.id) <;> simp [h]

theorem get_or_create_player_get (s : State) (u : User) :
    dget (get_or_create_player s u).1.players (toString u.id) =
      some (get_or_create_player s u).2 := by
  unfold get_or_create_player
  cases h : dget s.players (toString u.id) <;> simp [h]

theorem get_or_create_player_get_other (s : State) (u : User) (k : String)
    (hk : k ≠ toString u.id) :
    dget (get_or_create_player s u).1.players k = dget s.players k := by
  unfold get_or_create_player
  cases h : dget s.players (toString u.id) <;>
    simp [h, dget_dinsert_ne _ _ _ _ hk]

theorem find_waiting_table_sound {tl : List (String × Table)} {k : String} {t : Table}
    (h : find_waiting_table tl = some (k, t)) :
    (k, t) ∈ tl ∧ t.status = Status.waiting ∧ t.players.length < TABLE_SIZE := by
  induction tl with
  | nil => simp [find_waiting_table] at h
  | cons kv rest ih =>
    obtain ⟨k0, t0⟩ := kv
    by_cases h0 : t0.status = Status.waiting ∧ t0.players.length < TABLE_SIZE
    · simp [find_waiting_table, h0] at h
      obtain ⟨hk, ht⟩ := h
      subst hk; subst ht
      exact ⟨List.mem_cons_self _ _, h0⟩
    · simp only [find_waiting_table, if_neg h0] at h
      obtain ⟨hm, hw, hl⟩ := ih h
      exact ⟨List.mem_cons_of_mem _ hm, hw, hl⟩
-- ---------- WINNER-MATCHING LEMMAS ----------

theorem matchWinner_sound {players : List (String × Player)} {pids : List String}
    {mention : String} {pid : String} {wp : Player}
    (h : matchWinner players pids mention = some (pid, wp)) :
    ∃ l1 l2, pids = l1 ++ pid :: l2 ∧ dget players pid = some wp ∧
      mentionMatches wp mention = true ∧
      ∀ q ∈ l1, ∀ p, dget players q = some p →
        mentionMatches p mention = false := by
  induction pids with
  | nil => simp [matchWinner] at h
  | cons q rest ih =>
    cases hq : dget players q with
    | none =>
      simp only [matchWinner, hq] at h
      obtain ⟨l1, l2, he, hg, hm, hall⟩ := ih h
      refine ⟨q :: l1, l2, by simp [he], hg, hm, ?_⟩
      intro x hx p hp
      rcases List.mem_cons.mp hx with rfl | hx
      · rw [hq] at hp; exact absurd hp (by simp)
      · exact hall x hx p hp
    | some p =>
      cases hm : mentionMatches p mention with
      | true =>
        simp only [matchWinner, hq, hm, if_true] at h
        obtain ⟨rfl, rfl⟩ : q = pid ∧ p = wp := by
          have h' := Option.some.inj h
          exact ⟨congrArg Prod.fst h', congrArg Prod.snd h'⟩
        exact ⟨[], rest, rfl, hq, hm, by intro x hx; simp at hx⟩
      | false =>
        simp only [matchWinner, hq, hm, Bool.false_eq_true, if_false] at h
        obtain ⟨l1, l2, he, hg, hmm, hall⟩ := ih h
        refine ⟨q :: l1, l2, by simp [he], hg, hmm, ?_⟩
        intro x hx p' hp'
        rcases List.mem_cons.mp hx with rfl | hx
        · rw [hq] at hp'
          obtain rfl : p = p' := Option.some.inj hp'
          exact hm
        · exact hall x hx p' hp'

theorem matchWinner_isSome {players : List (String × Player)} {pids : List String}
    {mention : String}
    (h : ∃ pid ∈ pids, ∃ p, dget players pid = some p ∧
      mentionMatches p mention = true) :
    ∃ pid wp, matchWinner players pids mention = some (pid, wp) := by
  induction pids with
  | nil => simp at h
  | cons q rest ih =>
    cases hq : dget players q with
    | none =>
      simp only [matchWinner, hq]
      apply ih
      obtain ⟨pid, hmem, p, hg, hm⟩ := h
      rcases List.mem_cons.mp hmem with rfl | hmem
      · rw [hq] at hg; exact absurd hg (by simp)
      · exact ⟨pid, hmem, p, hg, hm⟩
    | some p =>
      cases hm : mentionMatches p mention with
      | true =>
        simp only [matchWinner, hq, hm, if_true]
        exact ⟨q, p, rfl⟩
      | false =>
        simp only [matchWinner, hq, hm, Bool.false_eq_true, if_false]
        apply ih
        obtain ⟨pid, hmem, p', hg, hm'⟩ := h
        rcases List.mem_cons.mp hmem with rfl | hmem
        · rw [hq] at hg
          obtain rfl : p = p' := Option.some.inj hg
          rw [hm] at hm'; exact absurd hm' (by simp)
        · exact ⟨pid, hmem, p', hg, hm'⟩

theorem matchWinner_eq_none {players : List (String × Player)} {pids : List String}
    {mention : String}
    (h : ∀ pid ∈ pids, ∀ p, dget players pid = some p →
      mentionMatches p mention = false) :
    matchWinner players pids mention = none := by
  induction pids with
  | nil => rfl
  | cons q rest ih =>
    cases hq : dget players q with
    | none =>
      simp only [matchWinner, hq]
      exact ih fun pid hm p hg => h pid (List.mem_cons_of_mem _ hm) p hg
    | some p =>
      have hf : mentionMatches p mention = false :=
        h q (List.mem_cons_self _ _) p hq
      simp only [matchWinner, hq, hf, Bool.false_eq_true, if_false]
      exact ih fun pid hm p' hg => h pid (List.mem_cons_of_mem _ hm) p' hg

-- ---------- THE LINKING INVARIANT ----------

/-- Whether one player record satisfies the linking invariant `start`
maintains (main.py lines 132-148): when `referred_by` is set it is a
non-empty (truthy) promoter id whose promoter record exists — the
referral that set it registered the promoter in the same
load-mutate-save cycle. -/
def referrerLinked (s : State) (p : Player) : Bool :=
  match p.referred_by with
  | none => true
  | some r => (!(r == "")) && (dget s.promoters r).isSome

/-- The linking invariant for a whole aggregate.  `winner`'s payout block
silently skips accrual when it fails (main.py lines 346-349), so the
payout-iff-referred property of a successful declaration is stated under
it. -/
def ReferrerOK (s : State) : Prop :=
  ∀ kp ∈ s.players, referrerLinked s kp.2 = true

instance decReferrerOK (s : State) : Decidable (ReferrerOK s) :=
  inferInstanceAs (Decidable (∀ kp ∈ s.players, referrerLinked s kp.2 = true))

-- ---------- CONCRETE INSTANCES (for counterexamples and witnesses) ----------

def uAlice : User := { id := 1, username := some "alice", first_name := some "Alice" }
def uBob : User := { id := 2, username := some "Bob", first_name := some "Bob" }
def uCarol : User := { id := 3, username := some "carol", first_name := some "Carol" }
def uDan : User := { id := 4, username := none, first_name := some "Dan" }
def uEve : User := { id := 5, username := some "BoB", first_name := some "Eve" }
def uBea : User := { id := 9, username := some "bea", first_name := some "Bea" }

def tok9 : String := "promo_9"
def tok7 : String := "promo_7"
def tokSelfCarol : String := "promo_3"
def key1 : String := "1"
def key2 : String := "2"
def key3 : String := "3"
def key4 : String := "4"
def key5 : String := "5"
def key9 : String := "9"
def mCarol : String := "@CAROL"
def mBob : String := "@bob"
def mDan : String := "@dan"

/-- Carol referred by promoter 9, then four players enrolled: table `1`
is `waiting` with four seats taken. -/
def cexPre : State :=
  joinAll (start emptyState uCarol (some tok9)) [uAlice, uBob, uCarol, uDan]

/-- The save/reply trace of the enrollment that fills table `1`. -/
def cexTrace : List Event := (join cexPre uEve).2.2

/-- The aggregate after the fifth enrollment: table `1` is `running` with
players `["1","2","3","4","5"]`. -/
def sFull : State := (join cexPre uEve).1

/-- Carol's player record inside `sFull`. -/
def pCarolFull : Player :=
  { id := 3, username := some "carol", first_name := some "Carol",
    joined_tables := 1, wins := 0, referred_by := some key9,
    promo_code := none }

/-- Table `1` inside `sFull`. -/
def tFull : Table :=
  { id := 1, status := Status.running, buy_in := BUY_IN,
    players := [key1, key2, key3, key4, key5], winner_id := none,
    promoters := [] }

/-- Bob's player record inside `sFull`. -/
def pBobFull : Player :=
  { id := 2, username := some "Bob", first_name := some "Bob",
    joined_tables := 1, wins := 0, referred_by := none, promo_code := none }

/-- Carol linked to promoter 9 at first contact (lazy shell created). -/
def sLinked : State := start emptyState uCarol (some tok9)

/-- Carol's player record inside `sLinked`. -/
def pCarolLinked : Player :=
  { id := 3, username := some "carol", first_name := some "Carol",
    joined_tables := 0, wins := 0, referred_by := some key9,
    promo_code := none }

/-- Promoter 9's lazy shell record inside `sLinked`. -/
def shell9 : Promoter :=
  { id := 9, username := none, first_name := none, promo_code := tok9,
    referred_players := 1, pending_payout := 0, total_paid := 0 }

/-- Carol recorded without a referrer (plain `/start`). -/
def preC3 : State := start emptyState uCarol none

def eventIsReply : Event → Bool
  | Event.save _ => false
  | Event.reply => true

/-- The status of table `k` in aggregate `s`, when present. -/
def tableStatusIn (s : State) (k : String) : Option Status :=
  (dget s.tables k).map Table.status

/-- The seat count of table `k` in aggregate `s`, when present. -/
def tableLenIn (s : State) (k : String) : Option Nat :=
  (dget s.tables k).map fun t => t.players.length

theorem get_or_create_player_snd (s : State) (u : User) :
    (get_or_create_player s u).2 =
      (match dget s.players (toString u.id) with
       | some p => p
       | none => freshPlayer u) := by
  unfold get_or_create_player
  cases h : dget s.players (toString u.id) <;> simp [h]

-- ---------- C9 ----------

/-- C9: `load_state` is total over the persisted representation: when no
state file exists, and when the persisted representation is unreadable or
corrupt, it returns the empty aggregate — empty `players`, `promoters`
and `tables` mappings, `next_table_id` counter equal to 1 — instead of
raising. -/
theorem C9_load_state_total :
    load_state Persisted.missing = emptyState ∧
    load_state Persisted.corrupt = emptyState ∧
    emptyState.players = [] ∧ emptyState.promoters = [] ∧
    emptyState.tables = [] ∧ emptyState.next_table_id = 1 :=
  ⟨rfl, rfl, rfl, rfl, rfl, rfl⟩

-- ---------- C5 ----------

/-- C5: every typed failure leaves the persisted aggregate unchanged: an
enrollment failing with `DuplicateEnrollment` returns before any
`save_state` (empty save trace, persisted state exactly the pre-handler
aggregate), and a winner declaration failing with `TableNotFound`,
`TableNotRunning` or `WinnerNotInTable` returns the pre-handler aggregate
— no joined-table increment, no wins increment, no payout accrual, no
status change. -/
theorem C5_failures_commit_nothing (s : State) (u : User)
    (table_id_str mention : String) :
    ((join s u).2.1 = JoinOutcome.duplicateEnrollment →
      (join s u).1 = s ∧ savedStates (join s u).2.2 = []) ∧
    (∀ e, (winner s table_id_str mention).2 = Except.error e →
      (winner s table_id_str mention).1 = s) := by
  constructor
  · simp only [join]
    split
    · intro _; exact ⟨rfl, rfl⟩
    · split <;> intro h <;> simp at h
  · intro e
    simp only [winner]
    cases ht : dget s.tables table_id_str with
    | none => intro _; rfl
    | some t =>
      dsimp only
      split
      · intro _; rfl
      · cases hm : matchWinner s.players t.players mention with
        | none => intro _; rfl
        | some kv =>
          obtain ⟨wuid, wp⟩ := kv
          dsimp only
          intro h
          simp at h

/-- Witness for C5: Alice enrolling twice hits `DuplicateEnrollment` and
commits nothing; declaring a winner on the empty aggregate hits
`TableNotFound` and commits nothing. -/
theorem C5_failures_commit_nothing_witness :
    ((join (joinAll emptyState [uAlice]) uAlice).2.1 =
        JoinOutcome.duplicateEnrollment ∧
      ((join (joinAll emptyState [uAlice]) uAlice).1 =
          joinAll emptyState [uAlice] ∧
        savedStates (join (joinAll emptyState [uAlice]) uAlice).2.2 = [])) ∧
    ((winner emptyState key1 mCarol).2 =
        Except.error WinnerError.tableNotFound ∧
      (winner emptyState key1 mCarol).1 = emptyState) := by
  constructor
  · have h : (join (joinAll emptyState [uAlice]) uAlice).2.1 =
        JoinOutcome.duplicateEnrollment := by decide
    exact ⟨h,
      (C5_failures_commit_nothing (joinAll emptyState [uAlice]) uAlice
        key1 mCarol).1 h⟩
  · have h : (winner emptyState key1 mCarol).2 =
        Except.error WinnerError.tableNotFound := by decide
    exact ⟨h,
      (C5_failures_commit_nothing emptyState uAlice key1 mCarol).2
        WinnerError.tableNotFound h⟩

-- ---------- C7 ----------

/-- C7: a referral token naming the acting principal's own id is ignored:
the promoters mapping is left entirely unchanged (so no promoter's
`referred_players` count changes), and the acting player's `referred_by`
stays exactly what it was before — `none` when the player is new or
unreferred. -/
theorem C7_self_referral (s : State) (u : User) (tok : String)
    (htok : parseToken tok = some (toString u.id)) :
    (start s u (some tok)).promoters = s.promoters ∧
    ∀ p', dget (start s u (some tok)).players (toString u.id) = some p' →
      p'.referred_by = (dget s.players (toString u.id)).bind Player.referred_by := by
  have hpro := get_or_create_player_promoters s u
  have hget := get_or_create_player_get s u
  have hsnd := get_or_create_player_snd s u
  have hstart : start s u (some tok) = (get_or_create_player s u).1 := by
    simp only [start, htok]
    cases hrb : (get_or_create_player s u).2.referred_by with
    | none => simp
    | some r => rfl
  rw [hstart]
  refine ⟨hpro, ?_⟩
  intro p' hp'
  rw [hget] at hp'
  obtain rfl : (get_or_create_player s u).2 = p' := Option.some.inj hp'
  rw [hsnd]
  cases hq : dget s.players (toString u.id) with
  | none => simp [freshPlayer]
  | some p => simp

/-- Witness for C7: Carol (id 3, already recorded and unreferred) sends
`/start promo_3`; nothing links and no promoter record changes. -/
theorem C7_self_referral_witness :
    parseToken tokSelfCarol = some (toString uCarol.id) ∧
    ((start preC3 uCarol (some tokSelfCarol)).promoters = preC3.promoters ∧
      ∀ p', dget (start preC3 uCarol (some tokSelfCarol)).players
          (toString uCarol.id) = some p' →
        p'.referred_by =
          (dget preC3.players (toString uCarol.id)).bind Player.referred_by) := by
  have h : parseToken tokSelfCarol = some (toString uCarol.id) := by decide
  exact ⟨h, C7_self_referral preC3 uCarol tokSelfCarol h⟩

-- ---------- C8 ----------

/-- C8: for an already-existing promoter record (for instance a lazy
shell created by a referral), `promo` fills in `username` and
`first_name` from the invoking principal while leaving
`referred_players`, `pending_payout`, `total_paid` and `promo_code`
unchanged. -/
theorem C8_promo_fills_identity (s : State) (u : User) (pr : Promoter)
    (h : dget s.promoters (toString u.id) = some pr) :
    ∃ pr', dget (promo s u).promoters (toString u.id) = some pr' ∧
      pr'.username = u.username ∧ pr'.first_name = u.first_name ∧
      pr'.referred_players = pr.referred_players ∧
      pr'.pending_payout = pr.pending_payout ∧
      pr'.total_paid = pr.total_paid ∧
      pr'.promo_code = pr.promo_code := by
  refine ⟨{ pr with username := u.username, first_name := u.first_name },
    ?_, rfl, rfl, rfl, rfl, rfl, rfl⟩
  simp [promo, get_or_create_promoter, h]

/-- Witness for C8: promoter 9's record was created lazily by Carol's
referral (unknown username); when user 9 later requests promoter
materials, the record gains their username and display name while
`referred_players` stays 1 and the money counters stay 0. -/
theorem C8_promo_fills_identity_witness :
    dget sLinked.promoters (toString uBea.id) = some shell9 ∧
    ∃ pr', dget (promo sLinked uBea).promoters (toString uBea.id) = some pr' ∧
      pr'.username = uBea.username ∧ pr'.first_name = uBea.first_name ∧
      pr'.referred_players = shell9.referred_players ∧
      pr'.pending_payout = shell9.pending_payout ∧
      pr'.total_paid = shell9.total_paid ∧
      pr'.promo_code = shell9.promo_code := by
  have h : dget sLinked.promoters (toString uBea.id) = some shell9 := by decide
  exact ⟨h, C8_promo_fills_identity sLinked uBea shell9 h⟩

-- ---------- C3 ----------

/-- C3 counterexample: Carol is recorded by a plain `/start` (no
referral token) — a first interaction that leaves `referred_by` unset.  A
LATER operation carrying the token `promo_9` still sets her
`referred_by` and increments promoter 9's `referred_players`, because the
code's guard (main.py line 132) is `referred_by is None`, not
"first-ever recorded interaction". -/
theorem C3_counterexample :
    (dget preC3.players key3).isSome = true ∧
    (dget preC3.players key3).bind Player.referred_by = none ∧
    dget preC3.promoters key9 = none ∧
    (dget (start preC3 uCarol (some tok9)).players key3).bind
      Player.referred_by = some key9 ∧
    (dget (start preC3 uCarol (some tok9)).promoters key9).map
      Promoter.referred_players = some 1 := by decide

/-- C3 amended: referral linking happens whenever the acting player's
`referred_by` is still unset — not only at the first-ever recorded
interaction.  What does hold: once a player's `referred_by` is set, a
later operation carrying a referral token changes nothing at all (the
whole aggregate is returned untouched, so in particular `referred_by`
keeps its value and no promoter's `referred_players` count moves). -/
theorem C3_amended_linked_player_token_noop (s : State) (u : User)
    (tok : String) (p : Player) (r : String)
    (hp : dget s.players (toString u.id) = some p)
    (hr : p.referred_by = some r) :
    start s u (some tok) = s := by
  have h1 := get_or_create_player_existing hp
  simp only [start, h1]
  cases hpt : parseToken tok with
  | none => rfl
  | some prid => rw [hr]

/-- Witness for the amended C3: Carol is already referred by promoter 9;
a later `/start promo_7` changes nothing. -/
theorem C3_amended_linked_player_token_noop_witness :
    dget sLinked.players (toString uCarol.id) = some pCarolLinked ∧
    pCarolLinked.referred_by = some key9 ∧
    start sLinked uCarol (some tok7) = sLinked := by
  have hp : dget sLinked.players (toString uCarol.id) = some pCarolLinked := by
    decide
  have hr : pCarolLinked.referred_by = some key9 := by decide
  exact ⟨hp, hr,
    C3_amended_linked_player_token_noop sLinked uCarol tok7 pCarolLinked key9
      hp hr⟩

-- ---------- FRAME LEMMAS FOR C6 ----------

theorem promo_players (s : State) (u : User) :
    (promo s u).players = s.players := by
  unfold promo get_or_create_promoter
  cases h : dget s.promoters (toString u.id) <;> simp [h]

theorem registerPromoter_players {s2 : State} {prid : String} {s3 : State}
    (h : registerPromoter s2 prid = some s3) : s3.players = s2.players := by
  simp only [registerPromoter] at h
  cases hq : dget s2.promoters prid with
  | some pr =>
    rw [hq] at h
    simp only [Option.some.injEq] at h
    rw [← h]
  | none =>
    rw [hq] at h
    cases hi : pyToInt? prid with
    | none => rw [hi] at h; simp at h
    | some n =>
      rw [hi] at h
      simp only [Option.some.injEq] at h
      rw [← h]

theorem accrue_players (s1 : State) (rb : Option String) :
    (accrue s1 rb).players = s1.players := by
  simp only [accrue]
  split
  · rfl
  · split
    · rfl
    · split <;> rfl

theorem start_keeps_referred (s : State) (u : User) (a : Option String)
    (uid : String) (p : Player) (r : String)
    (hp : dget s.players uid = some p) (hr : p.referred_by = some r) :
    ∃ p', dget (start s u a).players uid = some p' ∧ p'.referred_by = some r := by
  by_cases hu : uid = toString u.id
  · subst hu
    have h1 := get_or_create_player_existing hp
    cases a with
    | none => exact ⟨p, by simp [start, h1, hp], hr⟩
    | some tok =>
      cases hpt : parseToken tok with
      | none => exact ⟨p, by simp [start, h1, hpt, hp], hr⟩
      | some prid => exact ⟨p, by simp [start, h1, hpt, hr, hp], hr⟩
  · have h0 := get_or_create_player_get_other s u uid hu
    have hother : dget (start s u a).players uid = dget s.players uid := by
      cases a with
      | none => simp only [start]; exact h0
      | some tok =>
        cases hpt : parseToken tok with
        | none => simp only [start, hpt]; exact h0
        | some prid =>
          cases hrb : (get_or_create_player s u).2.referred_by with
          | some r0 => simp only [start, hpt, hrb]; exact h0
          | none =>
            by_cases hself : prid = toString u.id
            · simp only [start, hpt, hrb, if_pos hself]; exact h0
            · simp only [start, hpt, hrb, if_neg hself]
              split
              next s3 hreg =>
                rw [registerPromoter_players hreg]
                dsimp only
                rw [dget_dinsert_ne _ _ _ _ hu]
                exact h0
              next hreg => rfl
    rw [hother]
    exact ⟨p, hp, hr⟩

theorem join_players_eq (s : State) (u : User) :
    (join s u).1.players = s.players ∨
    (join s u).1.players =
      dinsert (get_or_create_player s u).1.players (toString u.id)
        ({ (get_or_create_player s u).2 with
           joined_tables := (get_or_create_player s u).2.joined_tables + 1 }) := by
  simp only [join]
  cases hf : find_waiting_table ((get_or_create_player s u).1.tables) with
  | some kt =>
    dsimp only
    split
    · exact Or.inl rfl
    · split
      · exact Or.inr rfl
      · exact Or.inr rfl
  | none =>
    dsimp only [create_table]
    split
    · exact Or.inl rfl
    · split
      · exact Or.inr rfl
      · exact Or.inr rfl

theorem join_keeps_referred (s : State) (u : User)
    (uid : String) (p : Player) (r : String)
    (hp : dget s.players uid = some p) (hr : p.referred_by = some r) :
    ∃ p', dget (join s u).1.players uid = some p' ∧ p'.referred_by = some r := by
  rcases join_players_eq s u with he | he
  · rw [he]; exact ⟨p, hp, hr⟩
  · rw [he]
    by_cases hu : uid = toString u.id
    · subst hu
      have h1 := get_or_create_player_existing hp
      rw [h1]
      exact ⟨_, dget_dinsert_self _ _ _, hr⟩
    · rw [dget_dinsert_ne _ _ _ _ hu, get_or_create_player_get_other s u uid hu]
      exact ⟨p, hp, hr⟩

theorem winner_players_eq (s : State) (tid m : String) :
    (winner s tid m).1.players = s.players ∨
    ∃ wuid wp, dget s.players wuid = some wp ∧
      (winner s tid m).1.players =
        dinsert s.players wuid ({ wp with wins := wp.wins + 1 }) := by
  simp only [winner]
  cases ht : dget s.tables tid with
  | none => exact Or.inl rfl
  | some t =>
    dsimp only
    split
    · exact Or.inl rfl
    · cases hm : matchWinner s.players t.players m with
      | none => exact Or.inl rfl
      | some kv =>
        obtain ⟨wuid, wp⟩ := kv
        dsimp only
        obtain ⟨l1, l2, he, hg, hmm, hall⟩ := matchWinner_sound hm
        exact Or.inr ⟨wuid, wp, hg, accrue_players _ _⟩

theorem winner_keeps_referred (s : State) (tid m : String)
    (uid : String) (p : Player) (r : String)
    (hp : dget s.players uid = some p) (hr : p.referred_by = some r) :
    ∃ p', dget (winner s tid m).1.players uid = some p' ∧
      p'.referred_by = some r := by
  rcases winner_players_eq s tid m with he | ⟨wuid, wp, hg, he⟩
  · rw [he]; exact ⟨p, hp, hr⟩
  · rw [he]
    by_cases hu : uid = wuid
    · subst hu
      obtain rfl : wp = p := by rw [hp] at hg; exact (Option.some.inj hg).symm
      exact ⟨_, dget_dinsert_self _ _ _, hr⟩
    · rw [dget_dinsert_ne _ _ _ _ hu]
      exact ⟨p, hp, hr⟩

-- ---------- C6 ----------

/-- C6: `referred_by` is write-once: once a player's `referred_by` holds
a promoter id, no later operation of the system — another referral token
(`/start`), `/promo`, an enrollment, a winner declaration, or any of the
read-only commands — ever changes it. -/
theorem C6_referred_by_write_once (s : State) (op : Op) (uid : String)
    (p : Player) (r : String)
    (hp : dget s.players uid = some p) (hr : p.referred_by = some r) :
    ∃ p', dget (applyOp s op).players uid = some p' ∧
      p'.referred_by = some r := by
  cases op with
  | startCmd u a => exact start_keeps_referred s u a uid p r hp hr
  | promoCmd u =>
    show ∃ p', dget (promo s u).players uid = some p' ∧ p'.referred_by = some r
    rw [promo_players]
    exact ⟨p, hp, hr⟩
  | joinCmd u => exact join_keeps_referred s u uid p r hp hr
  | winnerCmd tid m => exact winner_keeps_referred s tid m uid p r hp hr
  | readCmd => exact ⟨p, hp, hr⟩

/-- Witness for C6: Carol is referred by promoter 9; enrolling her in a
table (which rewrites her player record to bump `joined_tables`) keeps
`referred_by = "9"`. -/
theorem C6_referred_by_write_once_witness :
    dget sLinked.players key3 = some pCarolLinked ∧
    pCarolLinked.referred_by = some key9 ∧
    ∃ p', dget (applyOp sLinked (Op.joinCmd uCarol)).players key3 = some p' ∧
      p'.referred_by = some key9 := by
  have hp : dget sLinked.players key3 = some pCarolLinked := by decide
  have hr : pCarolLinked.referred_by = some key9 := by decide
  exact ⟨hp, hr,
    C6_referred_by_write_once sLinked (Op.joinCmd uCarol) key3 pCarolLinked
      key9 hp hr⟩

-- ---------- C2 ----------

/-- C2 counterexample: the enrollment that seats the fifth player in
table `1` does NOT set the table `running` within a single
load-mutate-save cycle before any externally visible reply.  The
handler's event trace is `[save, reply, save, reply]`: the first save —
the only one before any reply — commits the table with all
`TABLE_SIZE` seats taken but status still `waiting`; the `running`
status is committed only by a second save that happens after the join
reply has been sent (main.py lines 246, 251, 258). -/
theorem C2_counterexample :
    (savedStates cexTrace).length = 2 ∧
    cexTrace.map eventIsReply = [false, true, false, true] ∧
    ((savedStates cexTrace).map fun st => tableStatusIn st key1) =
      [some Status.waiting, some Status.running] ∧
    ((savedStates cexTrace).map fun st => tableLenIn st key1) =
      [some TABLE_SIZE, some TABLE_SIZE] := by decide

/-- C2 amended: the enrollment that fills a table does flip it to
`running` within the same handler invocation (same load), but through a
second `save_state` issued after the join reply: on a `tableFilled`
outcome the event trace is exactly
`[save sMid, reply, save final, reply]`, where `sMid` holds the full
table still `waiting` and the final state holds the same table
`running`.  Unchanged from the claim: no table ever becomes `running`
before its player list reaches capacity. -/
theorem C2_amended_running_via_second_save (s : State) (u : User) :
    (∀ tid, (join s u).2.1 = JoinOutcome.tableFilled tid →
      ∃ sMid t,
        (join s u).2.2 =
          [Event.save sMid, Event.reply, Event.save (join s u).1, Event.reply] ∧
        dget sMid.tables tid = some t ∧ t.status = Status.waiting ∧
        t.players.length = TABLE_SIZE ∧
        dget (join s u).1.tables tid = some { t with status := Status.running }) ∧
    (∀ k t', dget (join s u).1.tables k = some t' → t'.status = Status.running →
      (∃ t0, dget s.tables k = some t0 ∧ t0.status = Status.running) ∨
      t'.players.length = TABLE_SIZE) := by
  have htab := get_or_create_player_tables s u
  simp only [join]
  cases hf : find_waiting_table ((get_or_create_player s u).1.tables) with
  | some kt =>
    obtain ⟨k0, t0⟩ := kt
    rw [htab] at hf
    obtain ⟨hmem0, hw0, hl0⟩ := find_waiting_table_sound hf
    dsimp only
    split
    case isTrue hmem =>
      constructor
      · intro tid h; simp at h
      · intro k t' hg hr
        exact Or.inl ⟨t', hg, hr⟩
    case isFalse hmem =>
      split
      case isTrue hfull =>
        have hlen : t0.players.length + 1 = TABLE_SIZE := by
          simp at hfull; omega
        constructor
        · intro tid h
          simp only [JoinOutcome.tableFilled.injEq] at h
          subst h
          refine ⟨_, { t0 with players := t0.players ++ [toString u.id] },
            rfl, ?_, hw0, by simp [hlen], ?_⟩
          · simp [htab]
          · simp [htab]
        · intro k t' hg hr
          by_cases hk : k = k0
          · subst hk
            simp only [dget_dinsert_self] at hg
            obtain rfl := Option.some.inj hg
            right; simp [hlen]
          · rw [dget_dinsert_ne _ _ _ _ hk, dget_dinsert_ne _ _ _ _ hk,
              htab] at hg
            exact Or.inl ⟨t', hg, hr⟩
      case isFalse hfull =>
        constructor
        · intro tid h; simp at h
        · intro k t' hg hr
          by_cases hk : k = k0
          · subst hk
            simp only [dget_dinsert_self] at hg
            obtain rfl := Option.some.inj hg
            exact absurd hr (by simp [hw0])
          · rw [dget_dinsert_ne _ _ _ _ hk, htab] at hg
            exact Or.inl ⟨t', hg, hr⟩
  | none =>
    dsimp only [create_table]
    split
    case isTrue hmem => simp at hmem
    case isFalse hmem =>
      split
      case isTrue hfull =>
        exfalso
        simp [TABLE_SIZE] at hfull
      case isFalse hfull =>
        constructor
        · intro tid h; simp at h
        · intro k t' hg hr
          by_cases hk : k = toString (get_or_create_player s u).1.next_table_id
          · subst hk
            simp only [dget_dinsert_self] at hg
            obtain rfl := Option.some.inj hg
            exact absurd hr (by simp)
          · rw [dget_dinsert_ne _ _ _ _ hk, dget_dinsert_ne _ _ _ _ hk,
              htab] at hg
            exact Or.inl ⟨t', hg, hr⟩

/-- Witness for the amended C2: Eve's enrollment fills table `1`; the
trace shows the waiting-then-running double save. -/
theorem C2_amended_running_via_second_save_witness :
    (join cexPre uEve).2.1 = JoinOutcome.tableFilled key1 ∧
    ∃ sMid t,
      (join cexPre uEve).2.2 =
        [Event.save sMid, Event.reply, Event.save (join cexPre uEve).1,
         Event.reply] ∧
      dget sMid.tables key1 = some t ∧ t.status = Status.waiting ∧
      t.players.length = TABLE_SIZE ∧
      dget (join cexPre uEve).1.tables key1 =
        some { t with status := Status.running } := by
  have h : (join cexPre uEve).2.1 = JoinOutcome.tableFilled key1 := by decide
  exact ⟨h, (C2_amended_running_via_second_save cexPre uEve).1 key1 h⟩

-- ---------- C4 ----------

theorem join_tables_ok (s : State) (u : User)
    (h : ∀ kt ∈ s.tables,
      kt.2.players.length ≤ TABLE_SIZE ∧ kt.2.players.Nodup) :
    ∀ kt ∈ (join s u).1.tables,
      kt.2.players.length ≤ TABLE_SIZE ∧ kt.2.players.Nodup := by
  have htab := get_or_create_player_tables s u
  simp only [join]
  cases hf : find_waiting_table ((get_or_create_player s u).1.tables) with
  | some kt0 =>
    obtain ⟨k0, t0⟩ := kt0
    rw [htab] at hf
    obtain ⟨hmem0, hw0, hl0⟩ := find_waiting_table_sound hf
    obtain ⟨hle0, hnd0⟩ := h _ hmem0
    dsimp only
    split
    case isTrue hmem => exact h
    case isFalse hmem =>
      have hok : (t0.players ++ [toString u.id]).length ≤ TABLE_SIZE ∧
          (t0.players ++ [toString u.id]).Nodup := by
        constructor
        · simp; omega
        · simp [List.nodup_append, hnd0, hmem]
      split <;>
      · intro kt hkt
        rw [htab] at hkt
        rcases mem_dinsert hkt with hkt' | hkt'
        · first
          | exact h _ hkt'
          | rcases mem_dinsert hkt' with hkt'' | hkt''
            · exact h _ hkt''
            · subst hkt''; exact hok
        · subst hkt'; exact hok
  | none =>
    dsimp only [create_table]
    split
    case isTrue hmem => exact h
    case isFalse hmem =>
      have hok : (([] : List String) ++ [toString u.id]).length ≤ TABLE_SIZE ∧
          (([] : List String) ++ [toString u.id]).Nodup := by
        constructor
        · simp [TABLE_SIZE]
        · simp
      split
      case isTrue hfull => exfalso; simp [TABLE_SIZE] at hfull
      case isFalse hfull =>
        intro kt hkt
        rw [htab] at hkt
        rcases mem_dinsert hkt with hkt' | hkt'
        · rcases mem_dinsert hkt' with hkt'' | hkt''
          · exact h _ hkt''
          · subst hkt''
            constructor
            · simp [TABLE_SIZE]
            · simp
        · subst hkt'; exact hok

theorem joinAll_tables_ok (us : List User) : ∀ (s : State),
    (∀ kt ∈ s.tables,
      kt.2.players.length ≤ TABLE_SIZE ∧ kt.2.players.Nodup) →
    ∀ kt ∈ (joinAll s us).tables,
      kt.2.players.length ≤ TABLE_SIZE ∧ kt.2.players.Nodup := by
  induction us with
  | nil => intro s hs; simpa [joinAll] using hs
  | cons u rest ih =>
    intro s hs
    have hstep := join_tables_ok s u hs
    have hrest := ih ((join s u).1) hstep
    simpa [joinAll] using hrest

/-- C4: over every sequence of enrollments starting from the empty
aggregate, every table's player list has length at most `TABLE_SIZE` and
contains no player id twice. -/
theorem C4_capacity_nodup (us : List User) (k : String) (t : Table)
    (h : dget (joinAll emptyState us).tables k = some t) :
    t.players.length ≤ TABLE_SIZE ∧ t.players.Nodup := by
  suffices hall : ∀ kt ∈ (joinAll emptyState us).tables,
      kt.2.players.length ≤ TABLE_SIZE ∧ kt.2.players.Nodup from
    hall (k, t) (dget_mem h)
  exact joinAll_tables_ok us emptyState
    (by intro kt hkt; simp [emptyState] at hkt)

/-- Witness for C4: Alice, Bob, then Alice again (a duplicate attempt);
table `1` has the two distinct players and respects capacity. -/
theorem C4_capacity_nodup_witness :
    dget (joinAll emptyState [uAlice, uBob, uAlice]).tables key1 =
      some { id := 1, status := Status.waiting, buy_in := BUY_IN,
             players := [key1, key2], winner_id := none, promoters := [] } ∧
    ([key1, key2] : List String).length ≤ TABLE_SIZE ∧
    ([key1, key2] : List String).Nodup := by
  have h : dget (joinAll emptyState [uAlice, uBob, uAlice]).tables key1 =
      some { id := 1, status := Status.waiting, buy_in := BUY_IN,
             players := [key1, key2], winner_id := none,
             promoters := [] } := by decide
  exact ⟨h, C4_capacity_nodup [uAlice, uBob, uAlice] key1 _ h⟩

-- ---------- C1 ----------

theorem accrue_tables (s1 : State) (rb : Option String) :
    (accrue s1 rb).tables = s1.tables := by
  simp only [accrue]
  split
  · rfl
  · split
    · rfl
    · split <;> rfl

/-- C1: on a table in status `running`, a winner selector that matches
an enrolled player's username (case-insensitively, in the `@mention`
form the code compares) makes `winner` succeed: the table's status
becomes `finished`, `winner_id` becomes the resolved player's id, that
player's `wins` counter grows by exactly 1, and — under the linking
invariant `ReferrerOK`, which `reachable_ReferrerOK` proves to hold in
every aggregate reachable from the empty one — the referrer's `pending_payout` grows by exactly
`PROMO_BONUS` if the winner's `referred_by` is set, the promoters
mapping is untouched if it is not, and no other promoter's record
changes either way. -/
theorem C1_declare_winner_success (s : State) (table_id_str mention : String)
    (t : Table) (ht : dget s.tables table_id_str = some t)
    (hrun : t.status = Status.running)
    (hmatch : ∃ pid ∈ t.players, ∃ p, dget s.players pid = some p ∧
      mentionMatches p mention = true)
    (href : ReferrerOK s) :
    ∃ wuid wp, dget s.players wuid = some wp ∧ wuid ∈ t.players ∧
      (winner s table_id_str mention).2 = Except.ok wuid ∧
      dget (winner s table_id_str mention).1.tables table_id_str =
        some { t with status := Status.finished, winner_id := some wuid } ∧
      dget (winner s table_id_str mention).1.players wuid =
        some { wp with wins := wp.wins + 1 } ∧
      (∀ prid, wp.referred_by = some prid →
        ∃ pr, dget s.promoters prid = some pr ∧
          dget (winner s table_id_str mention).1.promoters prid =
            some { pr with pending_payout := pr.pending_payout + PROMO_BONUS }) ∧
      (wp.referred_by = none →
        (winner s table_id_str mention).1.promoters = s.promoters) ∧
      (∀ k, (∀ prid, wp.referred_by = some prid → k ≠ prid) →
        dget (winner s table_id_str mention).1.promoters k =
          dget s.promoters k) := by
  obtain ⟨wuid, wp, hm⟩ := matchWinner_isSome hmatch
  obtain ⟨l1, l2, he, hg, hmm, -⟩ := matchWinner_sound hm
  have hwmem : wuid ∈ t.players := by rw [he]; simp
  have hlink : referrerLinked s wp = true := href (wuid, wp) (dget_mem hg)
  refine ⟨wuid, wp, hg, hwmem, ?_⟩
  simp only [winner, ht]
  rw [if_neg (show ¬(t.status ≠ Status.running) from by simp [hrun]), hm]
  dsimp only
  refine ⟨rfl, ?_, ?_, ?_, ?_, ?_⟩
  · rw [accrue_tables]
    exact dget_dinsert_self _ _ _
  · rw [accrue_players]
    exact dget_dinsert_self _ _ _
  · intro prid hprid
    simp only [referrerLinked, hprid, Bool.and_eq_true, Bool.not_eq_true',
      beq_eq_false_iff_ne, ne_eq, Option.isSome_iff_exists] at hlink
    obtain ⟨hne, pr, hpr⟩ := hlink
    refine ⟨pr, hpr, ?_⟩
    simp only [accrue, hprid]
    rw [if_neg hne, hpr]
    exact dget_dinsert_self _ _ _
  · intro h0
    simp only [accrue, h0]
  · intro k hk
    cases hrb : wp.referred_by with
    | none => simp only [accrue, hrb]
    | some prid =>
      have hkp := hk prid hrb
      simp only [referrerLinked, hrb, Bool.and_eq_true, Bool.not_eq_true',
        beq_eq_false_iff_ne, ne_eq, Option.isSome_iff_exists] at hlink
      obtain ⟨hne, pr, hpr⟩ := hlink
      simp only [accrue]
      rw [if_neg hne, hpr]
      exact dget_dinsert_ne _ _ _ _ hkp

/-- Witness for C1: on the full running table `1`, the admin declares
`@CAROL`; Carol (id 3, username `carol`, referred by promoter 9) is
resolved, the table finishes with her as winner, her wins counter and
promoter 9's pending payout move as claimed. -/
theorem C1_declare_winner_success_witness :
    dget sFull.tables key1 = some tFull ∧
    tFull.status = Status.running ∧
    (dget sFull.players key3 = some pCarolFull ∧
      key3 ∈ tFull.players ∧
      mentionMatches pCarolFull mCarol = true) ∧
    ReferrerOK sFull ∧
    (∃ wuid wp, dget sFull.players wuid = some wp ∧ wuid ∈ tFull.players ∧
      (winner sFull key1 mCarol).2 = Except.ok wuid ∧
      dget (winner sFull key1 mCarol).1.tables key1 =
        some { tFull with status := Status.finished, winner_id := some wuid } ∧
      dget (winner sFull key1 mCarol).1.players wuid =
        some { wp with wins := wp.wins + 1 } ∧
      (∀ prid, wp.referred_by = some prid →
        ∃ pr, dget sFull.promoters prid = some pr ∧
          dget (winner sFull key1 mCarol).1.promoters prid =
            some { pr with pending_payout := pr.pending_payout + PROMO_BONUS }) ∧
      (wp.referred_by = none →
        (winner sFull key1 mCarol).1.promoters = sFull.promoters) ∧
      (∀ k, (∀ prid, wp.referred_by = some prid → k ≠ prid) →
        dget (winner sFull key1 mCarol).1.promoters k =
          dget sFull.promoters k)) := by
  have ht : dget sFull.tables key1 = some tFull := by decide
  have hrun : tFull.status = Status.running := by decide
  have hp : dget sFull.players key3 = some pCarolFull := by decide
  have hm3 : key3 ∈ tFull.players := by decide
  have hmm : mentionMatches pCarolFull mCarol = true := by decide
  have href : ReferrerOK sFull := by decide
  exact ⟨ht, hrun, ⟨hp, hm3, hmm⟩, href,
    C1_declare_winner_success sFull key1 mCarol tFull ht hrun
      ⟨key3, hm3, pCarolFull, hp, hmm⟩ href⟩

-- ---------- C10 ----------

/-- C10: winner resolution goes by username only.  On a `running` table:
a resolved winner always has a username set (so an enrolled player whose
record has no username can never be the resolved winner); when no
enrolled player's username matches the mention — in particular when the
intended winner is enrolled but has no username — `winner` fails with
`WinnerNotInTable` and changes nothing; and when a mention matches
several enrolled players' usernames case-insensitively, the resolved
winner is the first match in join order. -/
theorem C10_username_only_first_match (s : State)
    (table_id_str mention : String) (t : Table)
    (ht : dget s.tables table_id_str = some t)
    (hrun : t.status = Status.running) :
    (∀ pid wp, matchWinner s.players t.players mention = some (pid, wp) →
      dget s.players pid = some wp ∧ wp.username ≠ none ∧
      (winner s table_id_str mention).2 = Except.ok pid) ∧
    ((∀ pid ∈ t.players,
        (dget s.players pid).map (fun p => mentionMatches p mention) ≠
          some true) →
      winner s table_id_str mention =
        (s, Except.error WinnerError.winnerNotInTable)) ∧
    (∀ pid wp, matchWinner s.players t.players mention = some (pid, wp) →
      ∃ l1 l2, t.players = l1 ++ pid :: l2 ∧
        mentionMatches wp mention = true ∧
        ∀ q ∈ l1, ∀ p, dget s.players q = some p →
          mentionMatches p mention = false) := by
  refine ⟨?_, ?_, ?_⟩
  · intro pid wp hm
    obtain ⟨l1, l2, he, hg, hmm, -⟩ := matchWinner_sound hm
    refine ⟨hg, ?_, ?_⟩
    · intro hnone
      simp only [mentionMatches, hnone] at hmm
      exact Bool.noConfusion hmm
    · simp only [winner, ht]
      rw [if_neg (show ¬(t.status ≠ Status.running) from by simp [hrun]), hm]
  · intro hno
    have hnone : matchWinner s.players t.players mention = none := by
      apply matchWinner_eq_none
      intro pid hmem p hg
      have := hno pid hmem
      rw [hg] at this
      cases hb : mentionMatches p mention with
      | false => rfl
      | true =>
        exfalso
        apply this
        simp [hb]
    simp only [winner, ht]
    rw [if_neg (show ¬(t.status ≠ Status.running) from by simp [hrun]), hnone]
  · intro pid wp hm
    obtain ⟨l1, l2, he, hg, hmm, hall⟩ := matchWinner_sound hm
    exact ⟨l1, l2, he, hmm, hall⟩

/-- Witness for C10 on the full table `1`: Dan (id 4) is enrolled with no
username, so the mention `@dan` matches nobody and the declaration fails
with `WinnerNotInTable` although Dan is enrolled; the mention `@bob`
matches both Bob (id 2, username `Bob`) and Eve (id 5, username `BoB`),
and resolution picks Bob, the first in join order. -/
theorem C10_username_only_first_match_witness :
    (dget sFull.tables key1 = some tFull ∧ tFull.status = Status.running) ∧
    (key4 ∈ tFull.players ∧
      (dget sFull.players key4).bind Player.username = none ∧
      (∀ pid ∈ tFull.players,
        (dget sFull.players pid).map (fun p => mentionMatches p mDan) ≠
          some true) ∧
      winner sFull key1 mDan =
        (sFull, Except.error WinnerError.winnerNotInTable)) ∧
    (matchWinner sFull.players tFull.players mBob = some (key2, pBobFull) ∧
      ((dget sFull.players key5).map fun p => mentionMatches p mBob) =
        some true ∧
      ∃ l1 l2, tFull.players = l1 ++ key2 :: l2 ∧
        mentionMatches pBobFull mBob = true ∧
        ∀ q ∈ l1, ∀ p, dget sFull.players q = some p →
          mentionMatches p mBob = false) := by
  have ht : dget sFull.tables key1 = some tFull := by decide
  have hrun : tFull.status = Status.running := by decide
  have hno : ∀ pid ∈ tFull.players,
      (dget sFull.players pid).map (fun p => mentionMatches p mDan) ≠
        some true := by decide
  have hm : matchWinner sFull.players tFull.players mBob =
      some (key2, pBobFull) := by decide
  refine ⟨⟨ht, hrun⟩, ⟨by decide, by decide, hno, ?_⟩, hm, by decide, ?_⟩
  · exact (C10_username_only_first_match sFull key1 mDan tFull ht hrun).2.1 hno
  · exact (C10_username_only_first_match sFull key1 mBob tFull ht hrun).2.2
      key2 pBobFull hm

-- ---------- THE LINKING INVARIANT HOLDS ON ALL REACHABLE AGGREGATES ----------

theorem toDigitsCore_len_ge (b : Nat) :
    ∀ (f n : Nat) (l : List Char),
      l.length ≤ (Nat.toDigitsCore b f n l).length := by
  intro f
  induction f with
  | zero => intro n l; simp [Nat.toDigitsCore]
  | succ f ih =>
    intro n l
    simp only [Nat.toDigitsCore]
    split
    · simp
    · calc l.length ≤ (Nat.digitChar (n % b) :: l).length := by simp
        _ ≤ _ := ih (n / b) _

/-- `str(user.id)` is never the empty string, so promoter keys created
from a principal's id are truthy. -/
theorem natToString_ne_empty (n : Nat) : toString n ≠ "" := by
  intro h
  have hlist : Nat.toDigits 10 n = [] := congrArg String.data h
  have hlen := toDigitsCore_len_ge 10 n (n / 10) [Nat.digitChar (n % 10)]
  unfold Nat.toDigits Nat.toDigitsCore at hlist
  by_cases h10 : n / 10 = 0
  · simp [h10] at hlist
  · simp only [h10, if_false] at hlist
    rw [hlist] at hlen
    simp at hlen

theorem pyToInt?_ne_empty {s : String} {n : Int} (h : pyToInt? s = some n) :
    s ≠ "" := by
  intro he
  subst he
  exact Option.noConfusion h

theorem referrerLinked_of_none {s : State} {p : Player}
    (h : p.referred_by = none) : referrerLinked s p = true := by
  unfold referrerLinked
  rw [h]

theorem referrerLinked_eq_of_rb {s : State} {p q : Player}
    (h : p.referred_by = q.referred_by) :
    referrerLinked s p = referrerLinked s q := by
  unfold referrerLinked
  rw [h]

theorem referrerLinked_mono {s s' : State} (p : Player)
    (hmono : ∀ r, (dget s.promoters r).isSome = true →
      (dget s'.promoters r).isSome = true)
    (h : referrerLinked s p = true) : referrerLinked s' p = true := by
  unfold referrerLinked at h ⊢
  cases hrb : p.referred_by with
  | none => rfl
  | some r =>
    rw [hrb] at h
    simp only [Bool.and_eq_true] at h ⊢
    exact ⟨h.1, hmono r h.2⟩

theorem get_or_create_promoter_promoters (s : State) (u : User) :
    (get_or_create_promoter s u).1.promoters = s.promoters ∨
    (get_or_create_promoter s u).1.promoters =
      dinsert s.promoters (toString u.id) (freshPromoter u) := by
  unfold get_or_create_promoter
  cases h : dget s.promoters (toString u.id) <;> simp [h]

theorem mem_gocp_players {s : State} {u : User} {kp : String × Player}
    (h : kp ∈ (get_or_create_player s u).1.players) :
    kp ∈ s.players ∨ kp = (toString u.id, freshPlayer u) := by
  cases hq : dget s.players (toString u.id) with
  | some p =>
    simp only [get_or_create_player, hq] at h
    exact Or.inl h
  | none =>
    simp only [get_or_create_player, hq] at h
    exact mem_dinsert h

theorem gocp_preserves_linked {s : State} {u : User} (href : ReferrerOK s) :
    ReferrerOK (get_or_create_player s u).1 := by
  intro kp hkp
  have hpro := get_or_create_player_promoters s u
  have hlin : ∀ q : Player, referrerLinked (get_or_create_player s u).1 q =
      referrerLinked s q := by
    intro q
    unfold referrerLinked
    rw [hpro]
  rw [hlin]
  rcases mem_gocp_players hkp with hm | hm
  · exact href kp hm
  · rw [hm]
    exact referrerLinked_of_none rfl

theorem join_promoters (s : State) (u : User) :
    (join s u).1.promoters = s.promoters := by
  have hgp := get_or_create_player_promoters s u
  simp only [join]
  cases hf : find_waiting_table ((get_or_create_player s u).1.tables) with
  | some kt =>
    dsimp only
    split
    · rfl
    · split
      · exact hgp
      · exact hgp
  | none =>
    dsimp only [create_table]
    split
    · rfl
    · split
      · exact hgp
      · exact hgp

theorem registerPromoter_char {s2 : State} {prid : String} {s3 : State}
    (h : registerPromoter s2 prid = some s3) :
    s3.players = s2.players ∧
    (dget s3.promoters prid).isSome = true ∧
    (∀ r, (dget s2.promoters r).isSome = true →
      (dget s3.promoters r).isSome = true) ∧
    (∀ kp ∈ s3.promoters, kp ∈ s2.promoters ∨ kp.1 = prid) ∧
    (dget s2.promoters prid = none → (pyToInt? prid).isSome = true) := by
  cases hq : dget s2.promoters prid with
  | some pr =>
    simp only [registerPromoter, hq, Option.some.injEq] at h
    subst h
    refine ⟨rfl, by simp, ?_, ?_, ?_⟩
    · intro r hr
      exact isSome_dget_dinsert _ _ _ _ hr
    · intro kp hkp
      rcases mem_dinsert hkp with hm | hm
      · exact Or.inl hm
      · right; rw [hm]
    · intro hc
      exact Option.noConfusion hc
  | none =>
    cases hi : pyToInt? prid with
    | none => simp [registerPromoter, hq, hi] at h
    | some n =>
      simp only [registerPromoter, hq, hi, Option.some.injEq] at h
      subst h
      refine ⟨rfl, by simp, ?_, ?_, ?_⟩
      · intro r hr
        exact isSome_dget_dinsert _ _ _ _ (isSome_dget_dinsert _ _ _ _ hr)
      · intro kp hkp
        rcases mem_dinsert hkp with hm | hm
        · rcases mem_dinsert hm with hm' | hm'
          · exact Or.inl hm'
          · right; rw [hm']
        · right; rw [hm]
      · intro _; rfl

theorem start_linking_char (s : State) (u : User) (a : Option String)
    (hkeys : ∀ kp ∈ s.promoters, kp.1 ≠ "") :
    start s u a = s ∨ start s u a = (get_or_create_player s u).1 ∨
    ∃ prid, prid ≠ "" ∧
      (start s u a).players =
        dinsert (get_or_create_player s u).1.players (toString u.id)
          ({ (get_or_create_player s u).2 with referred_by := some prid }) ∧
      (dget (start s u a).promoters prid).isSome = true ∧
      (∀ r, (dget s.promoters r).isSome = true →
        (dget (start s u a).promoters r).isSome = true) ∧
      (∀ kp ∈ (start s u a).promoters, kp ∈ s.promoters ∨ kp.1 = prid) := by
  have hgp := get_or_create_player_promoters s u
  cases a with
  | none => exact Or.inr (Or.inl rfl)
  | some tok =>
    cases hpt : parseToken tok with
    | none => right; left; simp only [start, hpt]
    | some prid =>
      cases hrb : (get_or_create_player s u).2.referred_by with
      | some r0 => right; left; simp only [start, hpt, hrb]
      | none =>
        by_cases hself : prid = toString u.id
        · right; left; simp only [start, hpt, hrb, if_pos hself]
        · simp only [start, hpt, hrb, if_neg hself]
          split
          next s3 hreg =>
            obtain ⟨hpl, hsome, hmono, hmem, hint⟩ := registerPromoter_char hreg
            dsimp only at hpl hmono hmem hint
            rw [hgp] at hmono hmem hint
            right; right
            refine ⟨prid, ?_, hpl, hsome, hmono, hmem⟩
            cases hq : dget s.promoters prid with
            | some pr => exact hkeys (prid, pr) (dget_mem hq)
            | none =>
              have hi := hint hq
              obtain ⟨n, hn⟩ := Option.isSome_iff_exists.mp hi
              exact pyToInt?_ne_empty hn
          next hreg => exact Or.inl rfl

theorem start_preserves_linked (s : State) (u : User) (a : Option String)
    (hkeys : ∀ kp ∈ s.promoters, kp.1 ≠ "") (href : ReferrerOK s) :
    (∀ kp ∈ (start s u a).promoters, kp.1 ≠ "") ∧ ReferrerOK (start s u a) := by
  rcases start_linking_char s u a hkeys with
    h | h | ⟨prid, hne, hpl, hself, hmono, hmem⟩
  · rw [h]; exact ⟨hkeys, href⟩
  · rw [h]
    refine ⟨?_, gocp_preserves_linked href⟩
    rw [get_or_create_player_promoters]
    exact hkeys
  · constructor
    · intro kp hkp
      rcases hmem kp hkp with hm | hm
      · exact hkeys kp hm
      · rw [hm]; exact hne
    · intro kp hkp
      rw [hpl] at hkp
      rcases mem_dinsert hkp with hm | hm
      · rcases mem_gocp_players hm with hm' | hm'
        · exact referrerLinked_mono kp.2 hmono (href kp hm')
        · rw [hm']
          exact referrerLinked_of_none rfl
      · rw [hm]
        unfold referrerLinked
        dsimp only
        simp only [Bool.and_eq_true]
        exact ⟨by simp [hne], hself⟩

theorem promo_char (s : State) (u : User) :
    (promo s u).promoters =
      dinsert (get_or_create_promoter s u).1.promoters (toString u.id)
        ({ (get_or_create_promoter s u).2 with
           username := u.username, first_name := u.first_name }) := rfl

theorem promo_preserves_linked (s : State) (u : User)
    (hkeys : ∀ kp ∈ s.promoters, kp.1 ≠ "") (href : ReferrerOK s) :
    (∀ kp ∈ (promo s u).promoters, kp.1 ≠ "") ∧ ReferrerOK (promo s u) := by
  have hch := promo_char s u
  have hmono : ∀ r, (dget s.promoters r).isSome = true →
      (dget (promo s u).promoters r).isSome = true := by
    intro r hr
    rw [hch]
    apply isSome_dget_dinsert
    rcases get_or_create_promoter_promoters s u with hq | hq
    · rw [hq]; exact hr
    · rw [hq]; exact isSome_dget_dinsert _ _ _ _ hr
  constructor
  · intro kp hkp
    rw [hch] at hkp
    rcases mem_dinsert hkp with hm | hm
    · rcases get_or_create_promoter_promoters s u with hq | hq
      · rw [hq] at hm; exact hkeys kp hm
      · rw [hq] at hm
        rcases mem_dinsert hm with hm' | hm'
        · exact hkeys kp hm'
        · rw [hm']; exact natToString_ne_empty u.id
    · rw [hm]; exact natToString_ne_empty u.id
  · intro kp hkp
    rw [promo_players] at hkp
    exact referrerLinked_mono kp.2 hmono (href kp hkp)

theorem winner_promoters_eq (s : State) (tid m : String) :
    (winner s tid m).1.promoters = s.promoters ∨
    ∃ prid pr, prid ≠ "" ∧ dget s.promoters prid = some pr ∧
      (winner s tid m).1.promoters =
        dinsert s.promoters prid
          ({ pr with pending_payout := pr.pending_payout + PROMO_BONUS }) := by
  simp only [winner]
  cases ht : dget s.tables tid with
  | none => exact Or.inl rfl
  | some t =>
    dsimp only
    split
    · exact Or.inl rfl
    · cases hm : matchWinner s.players t.players m with
      | none => exact Or.inl rfl
      | some kv =>
        obtain ⟨wuid, wp⟩ := kv
        dsimp only
        simp only [accrue]
        split
        · exact Or.inl rfl
        · split
          next heq0 => exact Or.inl rfl
          next hne =>
            split
            next heq => exact Or.inl rfl
            next pr heq => exact Or.inr ⟨_, pr, hne, heq, rfl⟩

theorem winner_preserves_linked (s : State) (tid m : String)
    (hkeys : ∀ kp ∈ s.promoters, kp.1 ≠ "") (href : ReferrerOK s) :
    (∀ kp ∈ (winner s tid m).1.promoters, kp.1 ≠ "") ∧
    ReferrerOK (winner s tid m).1 := by
  have hmono : ∀ r, (dget s.promoters r).isSome = true →
      (dget (winner s tid m).1.promoters r).isSome = true := by
    intro r hr
    rcases winner_promoters_eq s tid m with hq | ⟨prid, pr, hne, hpr, hq⟩
    · rw [hq]; exact hr
    · rw [hq]; exact isSome_dget_dinsert _ _ _ _ hr
  constructor
  · intro kp hkp
    rcases winner_promoters_eq s tid m with hq | ⟨prid, pr, hne, hpr, hq⟩
    · rw [hq] at hkp; exact hkeys kp hkp
    · rw [hq] at hkp
      rcases mem_dinsert hkp with hm | hm
      · exact hkeys kp hm
      · rw [hm]; exact hne
  · intro kp hkp
    rcases winner_players_eq s tid m with hq | ⟨wuid, wp, hg, hq⟩
    · rw [hq] at hkp
      exact referrerLinked_mono kp.2 hmono (href kp hkp)
    · rw [hq] at hkp
      rcases mem_dinsert hkp with hm | hm
      · exact referrerLinked_mono kp.2 hmono (href kp hm)
      · rw [hm]
        apply referrerLinked_mono _ hmono
        rw [referrerLinked_eq_of_rb
          (show ({ wp with wins := wp.wins + 1 } : Player).referred_by =
            wp.referred_by from rfl)]
        exact href (wuid, wp) (dget_mem hg)

theorem join_preserves_linked (s : State) (u : User)
    (hkeys : ∀ kp ∈ s.promoters, kp.1 ≠ "") (href : ReferrerOK s) :
    (∀ kp ∈ (join s u).1.promoters, kp.1 ≠ "") ∧ ReferrerOK (join s u).1 := by
  have hjp := join_promoters s u
  have hmono : ∀ r, (dget s.promoters r).isSome = true →
      (dget (join s u).1.promoters r).isSome = true := by
    intro r hr; rw [hjp]; exact hr
  constructor
  · intro kp hkp; rw [hjp] at hkp; exact hkeys kp hkp
  · intro kp hkp
    rcases join_players_eq s u with hq | hq
    · rw [hq] at hkp
      exact referrerLinked_mono kp.2 hmono (href kp hkp)
    · rw [hq] at hkp
      rcases mem_dinsert hkp with hm | hm
      · rcases mem_gocp_players hm with hm' | hm'
        · exact referrerLinked_mono kp.2 hmono (href kp hm')
        · rw [hm']; exact referrerLinked_of_none rfl
      · rw [hm]
        apply referrerLinked_mono _ hmono
        rw [referrerLinked_eq_of_rb
          (show ({ (get_or_create_player s u).2 with
              joined_tables :=
                (get_or_create_player s u).2.joined_tables + 1 } : Player).referred_by =
            (get_or_create_player s u).2.referred_by from rfl)]
        cases hq2 : dget s.players (toString u.id) with
        | some p0 =>
          rw [congrArg Prod.snd (get_or_create_player_existing hq2)]
          exact href (toString u.id, p0) (dget_mem hq2)
        | none =>
          rw [congrArg Prod.snd (get_or_create_player_fresh hq2)]
          exact referrerLinked_of_none rfl

theorem applyOp_preserves_linked (s : State) (op : Op)
    (hkeys : ∀ kp ∈ s.promoters, kp.1 ≠ "") (href : ReferrerOK s) :
    (∀ kp ∈ (applyOp s op).promoters, kp.1 ≠ "") ∧ ReferrerOK (applyOp s op) := by
  cases op with
  | startCmd u a => exact start_preserves_linked s u a hkeys href
  | promoCmd u => exact promo_preserves_linked s u hkeys href
  | joinCmd u => exact join_preserves_linked s u hkeys href
  | winnerCmd tid m => exact winner_preserves_linked s tid m hkeys href
  | readCmd => exact ⟨hkeys, href⟩

theorem runOps_preserves_linked (ops : List Op) : ∀ (s : State),
    (∀ kp ∈ s.promoters, kp.1 ≠ "") → ReferrerOK s →
    (∀ kp ∈ (runOps s ops).promoters, kp.1 ≠ "") ∧
    ReferrerOK (runOps s ops) := by
  induction ops with
  | nil =>
    intro s h1 h2
    simp only [runOps, List.foldl_nil]
    exact ⟨h1, h2⟩
  | cons op rest ih =>
    intro s h1 h2
    obtain ⟨h1', h2'⟩ := applyOp_preserves_linked s op h1 h2
    have hrest := ih (applyOp s op) h1' h2'
    simpa [runOps] using hrest

/-- The linking invariant assumed by the winner-declaration theorem
holds in every aggregate reachable from the empty one by any sequence of
commands: whenever a reachable player's `referred_by` is set, it names a
truthy promoter id whose promoter record exists. -/
theorem reachable_ReferrerOK (ops : List Op) :
    ReferrerOK (runOps emptyState ops) :=
  (runOps_preserves_linked ops emptyState
    (by intro kp hkp; simp [emptyState] at hkp)
    (by intro kp hkp; simp [emptyState] at hkp)).2
